import Mathlib

/-!
Verification of the wikilink network extraction notebook
(`02-extract-wikilink-network/wikilink-network.ipynb`).

The Python code is shallowly embedded below.  External collaborators
(the MediaWiki API, the `re` regex engine, the filesystem cache) are
modelled as oracle parameters; every function of the repository itself
(`load_seed`, `split_param_list`, `check_redirects`, `parse_text`,
`get_outlinks_from_api`, `extract_network`, the per-title cache file
reads/writes) is translated statement by statement from the notebook.

Python dictionaries are modelled as insertion-ordered association lists
(`dget` / `dset`), Python exceptions as `Except`, and the append-only
edge-stream file as an accumulating list of `(source, target)` pairs.
-/

namespace WikilinkNetwork

/-- Python's `s.replace(' ', '_')` for a one-character pattern: replace every
space character by an underscore, leaving all other characters unchanged.
This is the title normalization used in `load_seed` and
`get_outlinks_from_api`. -/
def normalize (s : String) : String :=
  ⟨s.data.map (fun c => if c = ' ' then '_' else c)⟩

/-- Python's `line.strip('\n')`: drop leading and trailing newline characters
(used on each line in `load_seed`). -/
def strip_nl (s : String) : String :=
  ⟨((s.data.dropWhile (fun c => c = '\n')).reverse.dropWhile
      (fun c => c = '\n')).reverse⟩

/-- Key insertion into a Python dict viewed as its ordered key list:
`d[k] = 1` appends a fresh key at the end and leaves an existing key where
it is. -/
def insertKey (l : List String) (k : String) : List String :=
  if k ∈ l then l else l ++ [k]

/-- `list(set(xs))`, modelled as first-occurrence deduplication (the source
iterates a Python set whose order is unspecified; we fix insertion order). -/
def dedup (l : List String) : List String :=
  l.foldl insertKey []

/-- Lookup in a Python dict modelled as an association list. -/
def dget {β : Type} : List (String × β) → String → Option β
  | [], _ => none
  | p :: rest, k => if p.1 = k then some p.2 else dget rest k

/-- `d[k] = v` on a Python dict modelled as an association list: replace the
value of an existing key in place, or append a new binding at the end. -/
def dset {β : Type} : List (String × β) → String → β → List (String × β)
  | [], k, v => [(k, v)]
  | p :: rest, k, v => if p.1 = k then (k, v) :: rest else p :: dset rest k v

/-- Fuel-driven version of the list chunking
`[alist[x:x+50] for x in range(0, len(alist), 50)]` from
`split_param_list`.  The fuel argument only guarantees structural
termination; with fuel ≥ length it performs exactly the Python slicing
(each step removes at least one element, so `length` fuel always
suffices). -/
def chunks_fuel {α : Type} : Nat → List α → List (List α)
  | _, [] => []
  | 0, _ :: _ => []
  | n + 1, a :: rest => ((a :: rest).take 50) :: chunks_fuel n ((a :: rest).drop 50)

/-- `[alist[x:x+50] for x in range(0, len(alist), 50)]` with chunk length 50. -/
def chunks50 {α : Type} (l : List α) : List (List α) :=
  chunks_fuel l.length l

/-- Return type of `split_param_list`: the Python function returns the empty
string `''` for an empty input and a list of chunks otherwise. -/
inductive SplitRes (α : Type) : Type
  | emptyStr : SplitRes α
  | chunks : List (List α) → SplitRes α

/-- `split_param_list(alist)`: returns `''` if `len(alist) < 1`, otherwise
the list of consecutive 50-element slices of `alist`. -/
def split_param_list {α : Type} (alist : List α) : SplitRes α :=
  if alist.length < 1 then .emptyStr else .chunks (chunks50 alist)

/-- Iterating the result of `split_param_list` with a Python `for` loop:
iterating the empty string yields no elements, iterating the chunk list
yields the chunks. -/
def iterBatches {α : Type} : SplitRes α → List (List α)
  | .emptyStr => []
  | .chunks cs => cs

/-- Helper for `splitlines`: scan the character list, cutting a line at every
newline; a trailing segment is kept only when non-empty. -/
def splitlines_go : List Char → List Char → List String
  | [], acc => if acc.isEmpty then [] else [⟨acc.reverse⟩]
  | c :: rest, acc =>
      if c = '\n' then ⟨acc.reverse⟩ :: splitlines_go rest []
      else splitlines_go rest (c :: acc)

/-- Python's `str.splitlines()` restricted to `'\n'` line boundaries (the
cache files are written with `'\n'` separators only); used by
`get_outlinks` to read a cache file back. -/
def splitlines (s : String) : List String :=
  splitlines_go s.data []

/-- Content of a cache file built by repeated `f.write(line + '\n')`. -/
def file_content (lines : List String) : String :=
  ⟨(lines.map (fun l => l.data ++ ['\n'])).flatten⟩

/-- The lines written to the per-title cache file for a seed during the
level-0 pass of `extract_network`: `page_list_file.write(target + '\n')`
sits inside `if seed != target:`, so outlinks equal to the seed itself are
omitted. -/
def cache_lines_level0 (seed : String) (outlinks : List String) : List String :=
  outlinks.filter (fun t => decide (seed ≠ t))

/-- The lines written to the per-title cache file for a frontier title during
the level-1 pass of `extract_network`: every target is written
(`page_list_file_title.write(target + '\n')` is unguarded). -/
def cache_lines_level1 (_title : String) (outlinks : List String) : List String :=
  outlinks

/-- One entry of `result['query']['pages']` as used by the notebook: the
dict key (`pid`, the page id as a string, `'-1'` for a missing page), the
namespace field (`none` when `'ns'` is absent from the page record) and the
canonical page title. -/
structure Page where
  pid : String
  ns : Option Int
  title : String
deriving DecidableEq, Repr

/-- `parse_text(content)`.  The call `re.findall(linkP, content)` is the
external `re` engine applied to the notebook's `linkP` pattern and is
modelled by the oracle `findall`; one API `titles=...` query per batch is
modelled by the oracle `pageQuery` returning the `pages` dict as a list
(an absent/empty `pages` field is the empty list, which the fold skips just
as the code's `if result['query'].get('pages', None):` does).  The function
batches the rough links with `split_param_list`, keeps a page only when its
key is not `'-1'`, its record has an `'ns'` field and `ns == 0`, and
collects the canonical titles as keys of the dict `links` (insertion order,
first occurrence wins). -/
def pt_page_step (links : List String) (pg : Page) : List String :=
  if pg.pid ≠ "-1" ∧ pg.ns = some 0 then insertKey links pg.title else links

def pt_batch_step (pageQuery : List String → List Page)
    (links : List String) (title_list : List String) : List String :=
  (pageQuery title_list).foldl pt_page_step links

def parse_text (findall : String → List String)
    (pageQuery : List String → List Page) (content : String) : List String :=
  let rough_links := findall content
  (iterBatches (split_param_list rough_links)).foldl (pt_batch_step pageQuery) []

/-- The `result['query']` of one `check_redirects` batch query: the
`redirects` list (pairs `from`/`to`, empty when the field is absent) and the
`pages` dict as a list. -/
structure CRQueryResult where
  redirects : List (String × String)
  pages : List Page
deriving Repr

/-- `check_redirects(titles)`: batch the titles with `split_param_list`,
issue one query per batch (the remote service is the oracle `query`), merge
`redirects` entries into a from→to dict, and keep a page in the `links`
dict (mapping the space-normalized canonical title to the page id) only
when its key is not `'-1'`, it has an `'ns'` field and `ns == 0`.  The
`duplicates`/`missing` counters of the source feed only log lines and are
omitted. -/
def cr_links_step (lk : List (String × String)) (pg : Page) :
    List (String × String) :=
  if pg.pid ≠ "-1" ∧ pg.ns = some 0 then dset lk (normalize pg.title) pg.pid
  else lk

def cr_batch_step (query : List String → CRQueryResult)
    (st : List (String × String) × List (String × String))
    (title_list : List String) :
    List (String × String) × List (String × String) :=
  let res := query title_list
  (res.redirects.foldl (fun rd p => dset rd p.1 p.2) st.1,
   res.pages.foldl cr_links_step st.2)

def check_redirects (query : List String → CRQueryResult)
    (titles : List String) :
    List (String × String) × List (String × String) :=
  (iterBatches (split_param_list titles)).foldl (cr_batch_step query) ([], [])

/-- The revisions query issued by `get_outlinks_from_api`: the first key of
`result['query']['pages']` read as an integer (negative for a missing
article) and the revision content `rev['*']`. -/
structure RevResult where
  pid : Int
  content : String
deriving Repr

/-- `get_outlinks_from_api(title)`.  The remote service is the oracle
`revQuery`; `findall`/`pageQuery` are passed through to `parse_text`.  The
returned Boolean records whether any request was issued to the service:
the short-circuit `if title == '' or title == ' ':` returns before building
the `APIRequest`.  A result page id `< 1` is "article not found"; otherwise
the revision content is parsed and every extracted link is
space-normalized. -/
def get_outlinks_from_api (revQuery : String → RevResult)
    (findall : String → List String) (pageQuery : List String → List Page)
    (title : String) : (Int × List String) × Bool :=
  if title = "" ∨ title = " " then ((-1, []), false)
  else
    let r := revQuery title
    if r.pid < 1 then ((-1, []), true)
    else ((r.pid, (parse_text findall pageQuery r.content).map normalize), true)

/-- A string that is empty or consists only of whitespace characters (the
wording of the *EmptyTitle* error-handling clause of the spec). -/
def whitespace_only (s : String) : Bool :=
  s.data.all Char.isWhitespace

/-- The per-title mutable record of the `first_step` dict, with the fields
of `csv_fields` (the dict literals of `extract_network`). -/
structure DegreeRec where
  seed : Bool
  links_from_seed : Nat
  links_to_seed : Nat
  in_degree : Nat
  out_degree : Nat
  out_WP : Nat
deriving DecidableEq, Repr

/-- The `first_step` dict: title → degree record, insertion ordered. -/
abbrev Table := List (String × DegreeRec)

/-- The cache-or-resolve collaborator behind `get_outlinks(title)`:
`outlinks` is the `outlinks_checked` list the call returns for a title and
`is_new` its `is_new_page` flag (true when the on-disk cache had no
non-empty record, so the title was freshly resolved).  Within one run each
title is expanded at most once, so a pure oracle is faithful. -/
structure Env where
  is_new : String → Bool
  outlinks : String → List String

/-- `load_seed(file_name)` on the lines of the seed file: strip newlines,
skip empty lines and lines starting with `#`, space-normalize, and collect
as dict keys (insertion ordered, duplicates collapse). -/
def load_seed (seed_lines : List String) : List String :=
  seed_lines.foldl
    (fun dic line =>
      let el := strip_nl line
      if el ≠ "" ∧ el.data.head? ≠ some '#' then insertKey dic (normalize el)
      else dic)
    []

/-- The level-0 `try/except` block updating the *source* record: increment
`out_degree` (and `links_to_seed` when the target is a seed) if
`first_step[seed]` exists; on the `KeyError` create the record exactly as
the two dict literals of the `except:` branch do (`nout` is
`len(outlinks_checked)`). -/
def update_source_degrees (seeds : List String) (nout : Nat)
    (seed target : String) (tbl : Table) : Table :=
  match dget tbl seed with
  | some r =>
      dset tbl seed
        { r with
          out_degree := r.out_degree + 1
          links_to_seed :=
            if target ∈ seeds then r.links_to_seed + 1 else r.links_to_seed }
  | none =>
      if target ∈ seeds then
        dset tbl seed
          { seed := true, links_from_seed := 0, links_to_seed := 1
            in_degree := 0, out_degree := 1, out_WP := nout }
      else
        dset tbl seed
          { seed := true, links_from_seed := 0, links_to_seed := 0
            in_degree := 0, out_degree := 1, out_WP := nout }

/-- The level-0 `try/except` block updating the *target* record: increment
`links_from_seed` and `in_degree` (and set `seed = True` when the target is
a seed) if `first_step[target]` exists; on the `KeyError` create the record
as the `except:` branch does. -/
def update_target_degrees (seeds : List String)
    (_seed target : String) (tbl : Table) : Table :=
  match dget tbl target with
  | some r =>
      dset tbl target
        { r with
          links_from_seed := r.links_from_seed + 1
          in_degree := r.in_degree + 1
          seed := if target ∈ seeds then true else r.seed }
  | none =>
      if target ∈ seeds then
        dset tbl target
          { seed := true, links_from_seed := 1, links_to_seed := 0
            in_degree := 1, out_degree := 0, out_WP := 0 }
      else
        dset tbl target
          { seed := false, links_from_seed := 1, links_to_seed := 0
            in_degree := 1, out_degree := 0, out_WP := 0 }

/-- `first_step[seed]['out_WP'] = len(outlinks_checked)` guarded by
`if seed in first_step:` (the level-0 pre-loop update). -/
def set_out_WP (tbl : Table) (k : String) (n : Nat) : Table :=
  match dget tbl k with
  | some r => dset tbl k { r with out_WP := n }
  | none => tbl

/-- The body of the level-0 `for target in outlinks_checked:` loop for one
target: under `if seed != target:` write the edge `(seed, target)` to the
network file and run the two `try/except` degree updates (source first,
then target). -/
def edge_update0 (seeds : List String) (nout : Nat) (seed : String)
    (st : List (String × String) × Table) (target : String) :
    List (String × String) × Table :=
  if seed = target then st
  else
    (st.1 ++ [(seed, target)],
     update_target_degrees seeds seed target
       (update_source_degrees seeds nout seed target st.2))

/-- One iteration of the level-0 `for seed in set(seeds_list.keys()):` loop.
State: (edges written so far, `first_step`, concatenated
`links_to_seedlinks`).  The `out_WP` pre-update runs only when
`is_new_page` holds and the seed already has a record. -/
def process_seed (env : Env) (seeds : List String)
    (st : List (String × String) × Table × List String) (seed : String) :
    List (String × String) × Table × List String :=
  let outl := env.outlinks seed
  let tbl0 := if env.is_new seed then set_out_WP st.2.1 seed outl.length else st.2.1
  let r := outl.foldl (edge_update0 seeds outl.length seed) (st.1, tbl0)
  (r.1, r.2, st.2.2 ++ outl)

/-- The whole level-0 pass over the seed set. -/
def level0 (env : Env) (seeds : List String) :
    List (String × String) × Table × List String :=
  seeds.foldl (process_seed env seeds) ([], [], [])

/-- An unguarded `first_step[k]` read-modify-write as done by the level-1
pass: Python raises an uncaught `KeyError` when the key is absent, modelled
by `Except.error k`. -/
def bump (tbl : Table) (k : String) (f : DegreeRec → DegreeRec) :
    Except String Table :=
  match dget tbl k with
  | some r => .ok (dset tbl k (f r))
  | none => .error k

/-- The body of the level-1 `for target in outlinks_checked:` loop for one
target.  The edge is written to the network file before the unguarded
degree increments run, so it is recorded even when a subsequent lookup
raises; a raised `KeyError` aborts the rest of the run (the error state is
threaded and every later step is a no-op). -/
def edge_update1 (seeds frontier : List String) (title : String)
    (st : List (String × String) × Except String Table) (target : String) :
    List (String × String) × Except String Table :=
  match st.2 with
  | .error _ => st
  | .ok tbl =>
    if target ∈ seeds ∧ target ≠ title then
      (st.1 ++ [(title, target)],
       match bump tbl title
           (fun r => { r with links_to_seed := r.links_to_seed + 1 }) with
       | .error e => .error e
       | .ok t1 =>
         match bump t1 title (fun r => { r with out_degree := r.out_degree + 1 }) with
         | .error e => .error e
         | .ok t2 => bump t2 target (fun r => { r with in_degree := r.in_degree + 1 }))
    else if target ∈ frontier ∧ target ≠ title then
      (st.1 ++ [(title, target)],
       match bump tbl title (fun r => { r with out_degree := r.out_degree + 1 }) with
       | .error e => .error e
       | .ok t1 => bump t1 target (fun r => { r with in_degree := r.in_degree + 1 }))
    else st

/-- One iteration of the level-1 `for title in links_to_seedlinks:` loop:
when `is_new_page`, run the unguarded
`first_step[title]['out_WP'] = len(outlinks_checked)`, then process every
target.  An already-raised error leaves the state untouched. -/
def process_title1 (env : Env) (seeds frontier : List String)
    (st : List (String × String) × Except String Table) (title : String) :
    List (String × String) × Except String Table :=
  match st.2 with
  | .error _ => st
  | .ok tbl =>
    let outl := env.outlinks title
    match
      (if env.is_new title then
        bump tbl title (fun r => { r with out_WP := outl.length })
      else .ok tbl) with
    | .error e => (st.1, .error e)
    | .ok tbl2 => outl.foldl (edge_update1 seeds frontier title) (st.1, .ok tbl2)

/-- The whole level-1 pass over the candidate frontier (the accumulated
edge list starts empty: only the edges of this pass are collected here). -/
def level1 (env : Env) (seeds frontier : List String) (tbl : Table) :
    List (String × String) × Except String Table :=
  frontier.foldl (process_title1 env seeds frontier) ([], .ok tbl)

/-- Everything observable about one run of `extract_network`: the loaded
seed set, the candidate frontier, the edges written during each pass, and
either the final `first_step` table (the run reached the CSV export) or the
key of the uncaught `KeyError` that aborted it. -/
structure RunOutcome where
  seeds : List String
  frontier : List String
  edges0 : List (String × String)
  edges1 : List (String × String)
  result : Except String Table

/-- The edge stream of a run: level-0 edges followed by level-1 edges. -/
def RunOutcome.edges (o : RunOutcome) : List (String × String) :=
  o.edges0 ++ o.edges1

/-- Whether the run reached `Finalize` (the degree-table CSV export). -/
def run_reached_export (o : RunOutcome) : Bool :=
  match o.result with
  | .ok _ => true
  | .error _ => false

/-- The key of the uncaught `KeyError` that aborted the run, if any. -/
def run_error_key (o : RunOutcome) : Option String :=
  match o.result with
  | .ok _ => none
  | .error k => some k

/-- `extract_network(seed_file)` over the collaborator oracle `env` and the
lines of the seed file: load the seeds, run the level-0 pass, build the
candidate frontier `list(set(itertools.chain(...)) - set(seeds))`
(first-occurrence order), and run the level-1 pass. -/
def extract_network (env : Env) (seed_lines : List String) : RunOutcome :=
  let seeds := load_seed seed_lines
  let l0 := level0 env seeds
  let frontier := (dedup l0.2.2).filter (fun t => decide (t ∉ seeds))
  let l1 := level1 env seeds frontier l0.2.1
  ⟨seeds, frontier, l0.1, l1.1, l1.2⟩

/-! ### Helper lemmas -/

lemma chunks_fuel_flatten {α : Type} :
    ∀ (n : Nat) (l : List α), l.length ≤ n → (chunks_fuel n l).flatten = l := by
  intro n
  induction n with
  | zero =>
      intro l h
      cases l with
      | nil => rfl
      | cons a rest => simp at h
  | succ n ih =>
      intro l h
      cases l with
      | nil => rfl
      | cons a rest =>
          rw [chunks_fuel, List.flatten_cons, ih ((a :: rest).drop 50)
            (by simp only [List.length_drop]; simp at h ⊢; omega)]
          exact List.take_append_drop 50 (a :: rest)

lemma chunks_fuel_mem_length {α : Type} :
    ∀ (n : Nat) (l : List α) (b : List α), b ∈ chunks_fuel n l → b.length ≤ 50 := by
  intro n
  induction n with
  | zero =>
      intro l b hb
      cases l with
      | nil => simp [chunks_fuel] at hb
      | cons a rest => simp [chunks_fuel] at hb
  | succ n ih =>
      intro l b hb
      cases l with
      | nil => simp [chunks_fuel] at hb
      | cons a rest =>
          rw [chunks_fuel] at hb
          rcases List.mem_cons.mp hb with hb | hb
          · subst hb
            simp [List.length_take]
          · exact ih _ _ hb

lemma splitlines_go_line (rest : List Char) :
    ∀ (cs acc : List Char), '\n' ∉ cs →
      splitlines_go (cs ++ '\n' :: rest) acc
        = ⟨acc.reverse ++ cs⟩ :: splitlines_go rest [] := by
  intro cs
  induction cs with
  | nil =>
      intro acc _
      simp [splitlines_go]
  | cons c cs ih =>
      intro acc h
      have hc : ¬(c = '\n') := by
        intro hcc
        exact h (by simp [hcc])
      have hcs : '\n' ∉ cs := fun hm => h (List.mem_cons_of_mem _ hm)
      simp only [List.cons_append, splitlines_go, if_neg hc]
      simp only [List.append_eq]
      rw [ih (c :: acc) hcs]
      simp

lemma splitlines_file_content (L : List String)
    (h : ∀ l ∈ L, '\n' ∉ l.data) : splitlines (file_content L) = L := by
  induction L with
  | nil => rfl
  | cons l L ih =>
      show splitlines_go (((l :: L).map (fun s => s.data ++ ['\n'])).flatten) [] = l :: L
      have hdata :
          ((l :: L).map (fun s => s.data ++ ['\n'])).flatten
            = l.data ++ '\n' :: ((L.map (fun s => s.data ++ ['\n'])).flatten) := by
        simp
      rw [hdata, splitlines_go_line _ l.data [] (h l (by simp))]
      have htail : splitlines_go ((L.map (fun s => s.data ++ ['\n'])).flatten) [] = L :=
        ih (fun x hx => h x (List.mem_cons_of_mem _ hx))
      rw [htail]
      rfl

/-! ### Claim theorems (first batch) -/

/-- Claim C9 — Idempotent normalization: replacing every space by the
joining character `'_'` is idempotent: `normalize (normalize t) = normalize t`
for every raw title `t`. -/
theorem normalize_idempotent (t : String) :
    normalize (normalize t) = normalize t := by
  unfold normalize
  simp only [List.map_map]
  congr 1
  apply List.map_congr_left
  intro c _
  by_cases h : c = ' ' <;> simp [h, Function.comp]

/-- Claim C5 — Batching: every batch produced by `split_param_list` has
length at most 50, the concatenation of the batches in order is the input
list, and an empty input yields a result over which iteration produces no
batches. -/
theorem split_param_list_batching {α : Type} (alist : List α) :
    (∀ b ∈ iterBatches (split_param_list alist), b.length ≤ 50) ∧
    (iterBatches (split_param_list alist)).flatten = alist ∧
    (alist = [] → iterBatches (split_param_list alist) = []) := by
  unfold split_param_list
  by_cases h : alist.length < 1
  · have : alist = [] := List.eq_nil_of_length_eq_zero (by omega)
    subst this
    simp [iterBatches]
  · rw [if_neg h]
    refine ⟨?_, ?_, ?_⟩
    · intro b hb
      exact chunks_fuel_mem_length _ _ _ hb
    · exact chunks_fuel_flatten _ _ (Nat.le_refl _)
    · intro hnil
      subst hnil
      simp at h

/-- Witness for C5 at a concrete input. -/
theorem split_param_list_batching_witness :
    (["x", "y"] : List String).length ≤ 50 ∧
    (iterBatches (split_param_list (["x", "y"] : List String))).flatten = ["x", "y"] :=
  ⟨(split_param_list_batching ["x", "y"]).1 ["x", "y"] (by decide),
   (split_param_list_batching ["x", "y"]).2.1⟩

/-- Claim C8 (counterexample) — the cache round-trip fails as stated: for
the seed `"A"` with resolved outlink list `["B", "A"]`, the level-0 pass
writes the cache file without the self entry, so loading it back yields
`["B"]`, not the original list. -/
theorem cache_roundtrip_counterexample :
    splitlines (file_content (cache_lines_level0 "A" ["B", "A"])) = ["B"] ∧
    splitlines (file_content (cache_lines_level0 "A" ["B", "A"])) ≠ ["B", "A"] := by
  constructor
  · rfl
  · decide

/-- Claim C8 (amended) — Cache round-trip: for a title resolved during the
level-1 pass the cache file holds exactly the resolved list `L` and loading
it back returns `L` unchanged; for a seed resolved during the level-0 pass
the cache file omits the outlinks equal to the seed itself, and loading it
back returns `L` with exactly those entries removed.  (Titles contain no
newline characters.) -/
theorem cache_roundtrip_amended (T : String) (L : List String)
    (h : ∀ l ∈ L, '\n' ∉ l.data) :
    splitlines (file_content (cache_lines_level1 T L)) = L ∧
    splitlines (file_content (cache_lines_level0 T L))
      = L.filter (fun t => decide (T ≠ t)) := by
  constructor
  · exact splitlines_file_content L h
  · exact splitlines_file_content _
      (fun x hx => h x (List.mem_of_mem_filter hx))

/-- Witness for the amended C8 at a concrete input. -/
theorem cache_roundtrip_amended_witness :
    splitlines (file_content (cache_lines_level1 "A" ["B", "A"])) = ["B", "A"] ∧
    splitlines (file_content (cache_lines_level0 "A" ["B", "A"]))
      = (["B", "A"].filter (fun t => decide ("A" ≠ t))) :=
  cache_roundtrip_amended "A" ["B", "A"] (by decide)

/-- A concrete revisions oracle for the C7 counterexample: every queried
title resolves to page id 7 with body `"[[A]]"`. -/
def revQ0 : String → RevResult := fun _ => ⟨7, "[[A]]"⟩

/-- A concrete regex oracle: `re.findall(linkP, "[[A]]") == ['A']`. -/
def findall0 : String → List String := fun c =>
  if c = "[[A]]" then ["A"] else []

/-- A concrete batch-resolution oracle: every title resolves to a
namespace-0 page with id 7 and unchanged title. -/
def pageQ0 : List String → List Page := fun b =>
  b.map (fun t => ⟨"7", some 0, t⟩)

/-- Claim C7 (counterexample) — the empty-title short-circuit does not
cover all whitespace-only titles: the two-space title `"  "` is
whitespace-only, yet `get_outlinks_from_api` issues a request to the
service (the Boolean component) and does not return the not-found result. -/
theorem get_outlinks_whitespace_counterexample :
    whitespace_only "  " = true ∧
    (get_outlinks_from_api revQ0 findall0 pageQ0 "  ").2 = true ∧
    (get_outlinks_from_api revQ0 findall0 pageQ0 "  ").1 ≠ ((-1 : Int), []) := by
  refine ⟨by decide, rfl, by decide⟩

/-- Claim C7 (amended) — Empty-title short-circuit: for a title that is
exactly the empty string or exactly a single space character,
`get_outlinks_from_api` returns the not-found page id `-1` and an empty
outlink list without issuing any request to the remote service. -/
theorem get_outlinks_short_circuit (revQuery : String → RevResult)
    (findall : String → List String) (pageQuery : List String → List Page)
    (title : String) (h : title = "" ∨ title = " ") :
    get_outlinks_from_api revQuery findall pageQuery title = ((-1, []), false) := by
  unfold get_outlinks_from_api
  rw [if_pos h]

/-- Witness for the amended C7 at a concrete input. -/
theorem get_outlinks_short_circuit_witness :
    get_outlinks_from_api revQ0 findall0 pageQ0 "" = ((-1, []), false) :=
  get_outlinks_short_circuit revQ0 findall0 pageQ0 "" (Or.inl rfl)

/-! ### Dict membership lemmas, C6 and C4 -/

lemma mem_dset {β : Type} :
    ∀ (m : List (String × β)) (k : String) (v : β) (kv : String × β),
      kv ∈ dset m k v → kv = (k, v) ∨ kv ∈ m := by
  intro m k v
  induction m with
  | nil =>
      intro kv h
      simp [dset] at h
      exact Or.inl h
  | cons p rest ih =>
      intro kv h
      by_cases hp : p.1 = k
      · rw [dset, if_pos hp] at h
        rcases List.mem_cons.mp h with h | h
        · exact Or.inl h
        · exact Or.inr (List.mem_cons_of_mem _ h)
      · rw [dset, if_neg hp] at h
        rcases List.mem_cons.mp h with h | h
        · exact Or.inr (h ▸ List.mem_cons_self _ _)
        · rcases ih kv h with h2 | h2
          · exact Or.inl h2
          · exact Or.inr (List.mem_cons_of_mem _ h2)

lemma mem_insertKey (l : List String) (k x : String)
    (h : x ∈ insertKey l k) : x ∈ l ∨ x = k := by
  unfold insertKey at h
  split at h
  · exact Or.inl h
  · rcases List.mem_append.mp h with h | h
    · exact Or.inl h
    · exact Or.inr (by simpa using h)

lemma insertKey_nodup (l : List String) (k : String)
    (h : l.Nodup) : (insertKey l k).Nodup := by
  unfold insertKey
  split
  · exact h
  · refine h.append (List.nodup_singleton k) ?_
    intro a ha hk
    simp at hk
    subst hk
    exact (by assumption : ¬a ∈ l) ha

lemma cr_links_fold_mem (pages : List Page) :
    ∀ (lk : List (String × String)) (kv : String × String),
      kv ∈ pages.foldl cr_links_step lk →
      kv ∈ lk ∨ ∃ pg ∈ pages,
        pg.pid ≠ "-1" ∧ pg.ns = some 0 ∧ normalize pg.title = kv.1 ∧ pg.pid = kv.2 := by
  induction pages with
  | nil =>
      intro lk kv h
      exact Or.inl h
  | cons pg rest ih =>
      intro lk kv h
      simp only [List.foldl_cons] at h
      rcases ih _ kv h with h2 | h2
      · unfold cr_links_step at h2
        by_cases hc : pg.pid ≠ "-1" ∧ pg.ns = some 0
        · rw [if_pos hc] at h2
          rcases mem_dset _ _ _ _ h2 with h3 | h3
          · refine Or.inr ⟨pg, List.mem_cons_self _ _, hc.1, hc.2, ?_, ?_⟩
            · rw [h3]
            · rw [h3]
          · exact Or.inl h3
        · rw [if_neg hc] at h2
          exact Or.inl h2
      · obtain ⟨pg2, hmem, hp⟩ := h2
        exact Or.inr ⟨pg2, List.mem_cons_of_mem _ hmem, hp⟩

lemma cr_batches_fold_mem (query : List String → CRQueryResult) :
    ∀ (batches : List (List String))
      (st : List (String × String) × List (String × String))
      (kv : String × String),
      kv ∈ (batches.foldl (cr_batch_step query) st).2 →
      kv ∈ st.2 ∨ ∃ b ∈ batches, ∃ pg ∈ (query b).pages,
        pg.pid ≠ "-1" ∧ pg.ns = some 0 ∧ normalize pg.title = kv.1 ∧ pg.pid = kv.2 := by
  intro batches
  induction batches with
  | nil =>
      intro st kv h
      exact Or.inl h
  | cons b rest ih =>
      intro st kv h
      simp only [List.foldl_cons] at h
      rcases ih _ kv h with h2 | h2
      · rcases cr_links_fold_mem _ _ _ h2 with h3 | h3
        · exact Or.inl h3
        · obtain ⟨pg, hmem, hp⟩ := h3
          exact Or.inr ⟨b, List.mem_cons_self _ _, pg, hmem, hp⟩
      · obtain ⟨b2, hb, pg, hmem, hp⟩ := h2
        exact Or.inr ⟨b2, List.mem_cons_of_mem _ hb, pg, hmem, hp⟩

/-- Claim C6 — Namespace and missing-page filtering: every entry of the
`links` map produced by `check_redirects` comes from a page returned by the
service whose page id is not the missing-page sentinel `'-1'` and whose
namespace equals 0 (and the entry is that page's normalized canonical title
mapped to its page id); titles resolving to any other namespace or to a
missing page contribute no entry. -/
theorem check_redirects_namespace_filtering
    (query : List String → CRQueryResult) (titles : List String)
    (kv : String × String) (h : kv ∈ (check_redirects query titles).2) :
    ∃ b ∈ iterBatches (split_param_list titles), ∃ pg ∈ (query b).pages,
      pg.pid ≠ "-1" ∧ pg.ns = some 0 ∧ normalize pg.title = kv.1 ∧ pg.pid = kv.2 := by
  unfold check_redirects at h
  rcases cr_batches_fold_mem query _ _ _ h with h2 | h2
  · simp at h2
  · exact h2

/-- A concrete service oracle for the C6 witness: one resolvable page, one
missing page (`pid = '-1'`), one page outside namespace 0. -/
def crQ0 : List String → CRQueryResult := fun _ =>
  ⟨[("R", "A b")],
   [⟨"7", some 0, "A b"⟩, ⟨"-1", none, "M"⟩, ⟨"9", some 1, "T"⟩]⟩

/-- Witness for C6 at a concrete input. -/
theorem check_redirects_namespace_filtering_witness :
    ∃ b ∈ iterBatches (split_param_list ["A b", "M", "T"]),
      ∃ pg ∈ (crQ0 b).pages,
        pg.pid ≠ "-1" ∧ pg.ns = some 0 ∧
        normalize pg.title = ("A_b", "7").1 ∧ pg.pid = ("A_b", "7").2 :=
  check_redirects_namespace_filtering crQ0 ["A b", "M", "T"] ("A_b", "7") (by decide)

lemma pt_pages_fold_mem (pages : List Page) :
    ∀ (links : List String) (t : String),
      t ∈ pages.foldl pt_page_step links →
      t ∈ links ∨ ∃ pg ∈ pages, pg.pid ≠ "-1" ∧ pg.ns = some 0 ∧ pg.title = t := by
  induction pages with
  | nil =>
      intro links t h
      exact Or.inl h
  | cons pg rest ih =>
      intro links t h
      simp only [List.foldl_cons] at h
      rcases ih _ t h with h2 | h2
      · unfold pt_page_step at h2
        by_cases hc : pg.pid ≠ "-1" ∧ pg.ns = some 0
        · rw [if_pos hc] at h2
          rcases mem_insertKey _ _ _ h2 with h3 | h3
          · exact Or.inl h3
          · exact Or.inr ⟨pg, List.mem_cons_self _ _, hc.1, hc.2, h3.symm⟩
        · rw [if_neg hc] at h2
          exact Or.inl h2
      · obtain ⟨pg2, hmem, hp⟩ := h2
        exact Or.inr ⟨pg2, List.mem_cons_of_mem _ hmem, hp⟩

lemma pt_batches_fold_mem (pageQuery : List String → List Page) :
    ∀ (batches : List (List String)) (links : List String) (t : String),
      t ∈ batches.foldl (pt_batch_step pageQuery) links →
      t ∈ links ∨ ∃ b ∈ batches, ∃ pg ∈ pageQuery b,
        pg.pid ≠ "-1" ∧ pg.ns = some 0 ∧ pg.title = t := by
  intro batches
  induction batches with
  | nil =>
      intro links t h
      exact Or.inl h
  | cons b rest ih =>
      intro links t h
      simp only [List.foldl_cons] at h
      rcases ih _ t h with h2 | h2
      · rcases pt_pages_fold_mem _ _ _ h2 with h3 | h3
        · exact Or.inl h3
        · obtain ⟨pg, hmem, hp⟩ := h3
          exact Or.inr ⟨b, List.mem_cons_self _ _, pg, hmem, hp⟩
      · obtain ⟨b2, hb, pg, hmem, hp⟩ := h2
        exact Or.inr ⟨b2, List.mem_cons_of_mem _ hb, pg, hmem, hp⟩

lemma pt_pages_fold_nodup (pages : List Page) :
    ∀ (links : List String), links.Nodup → (pages.foldl pt_page_step links).Nodup := by
  induction pages with
  | nil =>
      intro links h
      exact h
  | cons pg rest ih =>
      intro links h
      simp only [List.foldl_cons]
      refine ih _ ?_
      unfold pt_page_step
      split
      · exact insertKey_nodup _ _ h
      · exact h

lemma pt_batches_fold_nodup (pageQuery : List String → List Page) :
    ∀ (batches : List (List String)) (links : List String),
      links.Nodup → (batches.foldl (pt_batch_step pageQuery) links).Nodup := by
  intro batches
  induction batches with
  | nil =>
      intro links h
      exact h
  | cons b rest ih =>
      intro links h
      simp only [List.foldl_cons]
      exact ih _ (pt_pages_fold_nodup _ _ h)

/-- The content used by the C4 counterexample. -/
def content0 : String := "[[A]] [[Talk:X]] [[A]]"

/-- The regex collaborator on the C4 counterexample content:
`re.findall(linkP, "[[A]] [[Talk:X]] [[A]]") == ['A', 'Talk:X', 'A']`
(the capture group of `linkP` stops at `]]` and allows `':'`). -/
def parseF0 : String → List String := fun c =>
  if c = content0 then ["A", "Talk:X", "A"] else []

/-- The service oracle for the C4 counterexample: `Talk:X` lives in
namespace 1, everything else resolves as a namespace-0 page. -/
def parseQ0 : List String → List Page := fun b =>
  b.map (fun t => if t = "Talk:X" then ⟨"55", some 1, t⟩ else ⟨"7", some 0, t⟩)

/-- Claim C4 (counterexample) — `parse_text` does not return the raw
candidate titles: on a body whose raw candidates are
`["A", "Talk:X", "A"]` it returns `["A"]` — the duplicate is collapsed and
the non-article-namespace title is dropped inside `parse_text` itself, not
downstream. -/
theorem parse_text_not_raw_counterexample :
    parse_text parseF0 parseQ0 content0 = ["A"] ∧
    parseF0 content0 = ["A", "Talk:X", "A"] ∧
    parse_text parseF0 parseQ0 content0 ≠ parseF0 content0 := by
  refine ⟨by decide, by decide, by decide⟩

/-- Claim C4 (amended) — `parse_text` extracts the raw candidates with the
link pattern (possibly duplicated, any namespace), but then itself resolves
them against the service in batches and returns a deduplicated list in
which every element is the canonical title of a returned page with a
non-missing page id and namespace 0; filtering and deduplication thus
happen inside `parse_text` (with a further resolution downstream in
`check_redirects`), and the raw candidate sequence is not returned. -/
theorem parse_text_resolved_dedup (findall : String → List String)
    (pageQuery : List String → List Page) (content : String) :
    (parse_text findall pageQuery content).Nodup ∧
    ∀ t ∈ parse_text findall pageQuery content,
      ∃ b ∈ iterBatches (split_param_list (findall content)),
        ∃ pg ∈ pageQuery b, pg.pid ≠ "-1" ∧ pg.ns = some 0 ∧ pg.title = t := by
  constructor
  · exact pt_batches_fold_nodup pageQuery _ [] List.nodup_nil
  · intro t ht
    unfold parse_text at ht
    rcases pt_batches_fold_mem pageQuery _ _ _ ht with h | h
    · simp at h
    · exact h

/-- Witness for the amended C4 at a concrete input. -/
theorem parse_text_resolved_dedup_witness :
    ∃ b ∈ iterBatches (split_param_list (parseF0 content0)),
      ∃ pg ∈ parseQ0 b, pg.pid ≠ "-1" ∧ pg.ns = some 0 ∧ pg.title = "A" :=
  (parse_text_resolved_dedup parseF0 parseQ0 content0).2 "A" (by decide)

/-! ### Degree accounting: definitions and pointwise lemmas -/

/-- Number of edges of the stream whose target is `x`. -/
def inCnt (edges : List (String × String)) (x : String) : Nat :=
  (edges.filter (fun e => decide (e.2 = x))).length

/-- Number of edges of the stream whose source is `x`. -/
def outCnt (edges : List (String × String)) (x : String) : Nat :=
  (edges.filter (fun e => decide (e.1 = x))).length

/-- The `in_degree` of an optional degree record (0 when absent). -/
def optIn : Option DegreeRec → Nat
  | none => 0
  | some r => r.in_degree

/-- The `out_degree` of an optional degree record (0 when absent). -/
def optOut : Option DegreeRec → Nat
  | none => 0
  | some r => r.out_degree

/-- Degree consistency between an edge stream and a degree table: for every
title, the edge counts equal the recorded degrees (0 for absent records). -/
def degInv (edges : List (String × String)) (tbl : Table) : Prop :=
  ∀ x, inCnt edges x = optIn (dget tbl x) ∧ outCnt edges x = optOut (dget tbl x)

lemma inCnt_append (es : List (String × String)) (s t x : String) :
    inCnt (es ++ [(s, t)]) x = inCnt es x + (if t = x then 1 else 0) := by
  unfold inCnt
  rw [List.filter_append, List.length_append]
  congr 1
  by_cases h : t = x <;> simp [h]

lemma outCnt_append (es : List (String × String)) (s t x : String) :
    outCnt (es ++ [(s, t)]) x = outCnt es x + (if s = x then 1 else 0) := by
  unfold outCnt
  rw [List.filter_append, List.length_append]
  congr 1
  by_cases h : s = x <;> simp [h]

lemma dget_dset {β : Type} :
    ∀ (m : List (String × β)) (k : String) (v : β) (x : String),
      dget (dset m k v) x = if k = x then some v else dget m x := by
  intro m k v
  induction m with
  | nil =>
      intro x
      simp [dset, dget]
  | cons p rest ih =>
      intro x
      by_cases hp : p.1 = k
      · rw [dset, if_pos hp]
        show (if k = x then some v else dget rest x)
          = if k = x then some v else dget (p :: rest) x
        by_cases hx : k = x
        · rw [if_pos hx, if_pos hx]
        · rw [if_neg hx, if_neg hx, dget, if_neg (fun h => hx (hp.symm.trans h))]
      · rw [dset, if_neg hp]
        show (if p.1 = x then some p.2 else dget (dset rest k v) x)
          = if k = x then some v else dget (p :: rest) x
        by_cases hpx : p.1 = x
        · rw [if_pos hpx, if_neg (fun h => hp (hpx.trans h.symm)), dget, if_pos hpx]
        · rw [if_neg hpx, ih x, dget, if_neg hpx]

lemma foldl_preserve {α σ : Type} (P : σ → Prop) (step : σ → α → σ)
    (hstep : ∀ s a, P s → P (step s a)) :
    ∀ (l : List α) (init : σ), P init → P (l.foldl step init) := by
  intro l
  induction l with
  | nil =>
      intro init h
      exact h
  | cons a rest ih =>
      intro init h
      exact ih _ (hstep init a h)

lemma usd_optIn (seeds : List String) (nout : Nat) (seed target x : String)
    (tbl : Table) :
    optIn (dget (update_source_degrees seeds nout seed target tbl) x)
      = optIn (dget tbl x) := by
  unfold update_source_degrees
  cases h : dget tbl seed with
  | some r =>
      rw [dget_dset]
      by_cases hx : seed = x
      · rw [if_pos hx]
        subst hx
        rw [h]
        rfl
      · rw [if_neg hx]
  | none =>
      by_cases hts : target ∈ seeds
      · rw [if_pos hts, dget_dset]
        by_cases hx : seed = x
        · rw [if_pos hx]
          subst hx
          rw [h]
          rfl
        · rw [if_neg hx]
      · rw [if_neg hts, dget_dset]
        by_cases hx : seed = x
        · rw [if_pos hx]
          subst hx
          rw [h]
          rfl
        · rw [if_neg hx]

lemma usd_optOut (seeds : List String) (nout : Nat) (seed target x : String)
    (tbl : Table) :
    optOut (dget (update_source_degrees seeds nout seed target tbl) x)
      = optOut (dget tbl x) + (if seed = x then 1 else 0) := by
  unfold update_source_degrees
  cases h : dget tbl seed with
  | some r =>
      rw [dget_dset]
      by_cases hx : seed = x
      · rw [if_pos hx, if_pos hx]
        subst hx
        rw [h]
        rfl
      · rw [if_neg hx, if_neg hx]
        omega
  | none =>
      by_cases hts : target ∈ seeds
      · rw [if_pos hts, dget_dset]
        by_cases hx : seed = x
        · rw [if_pos hx, if_pos hx]
          subst hx
          rw [h]
          rfl
        · rw [if_neg hx, if_neg hx]
          omega
      · rw [if_neg hts, dget_dset]
        by_cases hx : seed = x
        · rw [if_pos hx, if_pos hx]
          subst hx
          rw [h]
          rfl
        · rw [if_neg hx, if_neg hx]
          omega

lemma utd_optOut (seeds : List String) (seed target x : String) (tbl : Table) :
    optOut (dget (update_target_degrees seeds seed target tbl) x)
      = optOut (dget tbl x) := by
  unfold update_target_degrees
  cases h : dget tbl target with
  | some r =>
      rw [dget_dset]
      by_cases hx : target = x
      · rw [if_pos hx]
        subst hx
        rw [h]
        rfl
      · rw [if_neg hx]
  | none =>
      by_cases hts : target ∈ seeds
      · rw [if_pos hts, dget_dset]
        by_cases hx : target = x
        · rw [if_pos hx]
          subst hx
          rw [h]
          rfl
        · rw [if_neg hx]
      · rw [if_neg hts, dget_dset]
        by_cases hx : target = x
        · rw [if_pos hx]
          subst hx
          rw [h]
          rfl
        · rw [if_neg hx]

lemma utd_optIn (seeds : List String) (seed target x : String) (tbl : Table) :
    optIn (dget (update_target_degrees seeds seed target tbl) x)
      = optIn (dget tbl x) + (if target = x then 1 else 0) := by
  unfold update_target_degrees
  cases h : dget tbl target with
  | some r =>
      rw [dget_dset]
      by_cases hx : target = x
      · rw [if_pos hx, if_pos hx]
        subst hx
        rw [h]
        rfl
      · rw [if_neg hx, if_neg hx]
        omega
  | none =>
      by_cases hts : target ∈ seeds
      · rw [if_pos hts, dget_dset]
        by_cases hx : target = x
        · rw [if_pos hx, if_pos hx]
          subst hx
          rw [h]
          rfl
        · rw [if_neg hx, if_neg hx]
          omega
      · rw [if_neg hts, dget_dset]
        by_cases hx : target = x
        · rw [if_pos hx, if_pos hx]
          subst hx
          rw [h]
          rfl
        · rw [if_neg hx, if_neg hx]
          omega

lemma sWP_optIn (tbl : Table) (k : String) (n : Nat) (x : String) :
    optIn (dget (set_out_WP tbl k n) x) = optIn (dget tbl x) := by
  unfold set_out_WP
  cases h : dget tbl k with
  | some r =>
      rw [dget_dset]
      by_cases hx : k = x
      · rw [if_pos hx]
        subst hx
        rw [h]
        rfl
      · rw [if_neg hx]
  | none => rfl

lemma sWP_optOut (tbl : Table) (k : String) (n : Nat) (x : String) :
    optOut (dget (set_out_WP tbl k n) x) = optOut (dget tbl x) := by
  unfold set_out_WP
  cases h : dget tbl k with
  | some r =>
      rw [dget_dset]
      by_cases hx : k = x
      · rw [if_pos hx]
        subst hx
        rw [h]
        rfl
      · rw [if_neg hx]
  | none => rfl

/-! ### Bump lemmas (level-1 unguarded updates) -/

lemma bump_ok {tbl : Table} {k : String} {f : DegreeRec → DegreeRec} {tbl2 : Table}
    (h : bump tbl k f = .ok tbl2) :
    ∃ r, dget tbl k = some r ∧
      ∀ x, dget tbl2 x = if k = x then some (f r) else dget tbl x := by
  unfold bump at h
  cases hg : dget tbl k with
  | some r =>
      rw [hg] at h
      injection h with h2
      subst h2
      exact ⟨r, rfl, fun x => dget_dset tbl k (f r) x⟩
  | none =>
      rw [hg] at h
      simp at h

lemma bump_optIn_preserved {tbl tbl2 : Table} {k : String}
    {f : DegreeRec → DegreeRec} (h : bump tbl k f = .ok tbl2)
    (hf : ∀ r, (f r).in_degree = r.in_degree) (x : String) :
    optIn (dget tbl2 x) = optIn (dget tbl x) := by
  obtain ⟨r, hg, hp⟩ := bump_ok h
  rw [hp x]
  by_cases hx : k = x
  · rw [if_pos hx]
    subst hx
    rw [hg]
    exact hf r
  · rw [if_neg hx]

lemma bump_optIn_incr {tbl tbl2 : Table} {k : String}
    {f : DegreeRec → DegreeRec} (h : bump tbl k f = .ok tbl2)
    (hf : ∀ r, (f r).in_degree = r.in_degree + 1) (x : String) :
    optIn (dget tbl2 x) = optIn (dget tbl x) + (if k = x then 1 else 0) := by
  obtain ⟨r, hg, hp⟩ := bump_ok h
  rw [hp x]
  by_cases hx : k = x
  · rw [if_pos hx, if_pos hx]
    subst hx
    rw [hg]
    exact hf r
  · rw [if_neg hx, if_neg hx]
    omega

lemma bump_optOut_preserved {tbl tbl2 : Table} {k : String}
    {f : DegreeRec → DegreeRec} (h : bump tbl k f = .ok tbl2)
    (hf : ∀ r, (f r).out_degree = r.out_degree) (x : String) :
    optOut (dget tbl2 x) = optOut (dget tbl x) := by
  obtain ⟨r, hg, hp⟩ := bump_ok h
  rw [hp x]
  by_cases hx : k = x
  · rw [if_pos hx]
    subst hx
    rw [hg]
    exact hf r
  · rw [if_neg hx]

lemma bump_optOut_incr {tbl tbl2 : Table} {k : String}
    {f : DegreeRec → DegreeRec} (h : bump tbl k f = .ok tbl2)
    (hf : ∀ r, (f r).out_degree = r.out_degree + 1) (x : String) :
    optOut (dget tbl2 x) = optOut (dget tbl x) + (if k = x then 1 else 0) := by
  obtain ⟨r, hg, hp⟩ := bump_ok h
  rw [hp x]
  by_cases hx : k = x
  · rw [if_pos hx, if_pos hx]
    subst hx
    rw [hg]
    exact hf r
  · rw [if_neg hx, if_neg hx]
    omega

/-! ### Degree-consistency preservation through both passes -/

lemma edge_update0_degInv (seeds : List String) (nout : Nat) (seed : String)
    (st : List (String × String) × Table) (target : String)
    (h : degInv st.1 st.2) :
    degInv (edge_update0 seeds nout seed st target).1
      (edge_update0 seeds nout seed st target).2 := by
  unfold edge_update0
  by_cases he : seed = target
  · rw [if_pos he]
    exact h
  · rw [if_neg he]
    dsimp only
    intro x
    constructor
    · rw [inCnt_append, utd_optIn, usd_optIn, (h x).1]
    · rw [outCnt_append, utd_optOut, usd_optOut, (h x).2]

lemma process_seed_degInv (env : Env) (seeds : List String)
    (st : List (String × String) × Table × List String) (seed : String)
    (h : degInv st.1 st.2.1) :
    degInv (process_seed env seeds st seed).1
      (process_seed env seeds st seed).2.1 := by
  simp only [process_seed]
  have h0 :
      degInv st.1
        (if env.is_new seed then
          set_out_WP st.2.1 seed (env.outlinks seed).length
        else st.2.1) := by
    split
    · intro x
      exact ⟨by rw [sWP_optIn]; exact (h x).1, by rw [sWP_optOut]; exact (h x).2⟩
    · exact h
  exact foldl_preserve (fun p => degInv p.1 p.2)
    (edge_update0 seeds (env.outlinks seed).length seed)
    (fun s a hs => edge_update0_degInv seeds (env.outlinks seed).length seed s a hs)
    (env.outlinks seed) (st.1, _) h0

lemma level0_degInv (env : Env) (seeds : List String) :
    degInv (level0 env seeds).1 (level0 env seeds).2.1 := by
  unfold level0
  refine foldl_preserve (fun p => degInv p.1 p.2.1) (process_seed env seeds)
    (fun s a hs => process_seed_degInv env seeds s a hs) seeds ([], [], []) ?_
  intro x
  exact ⟨rfl, rfl⟩

lemma edge_update1_degInv (pre : List (String × String))
    (seeds frontier : List String) (title : String)
    (st : List (String × String) × Except String Table) (target : String)
    (h : ∀ tbl, st.2 = .ok tbl → degInv (pre ++ st.1) tbl) :
    ∀ tbl, (edge_update1 seeds frontier title st target).2 = .ok tbl →
      degInv (pre ++ (edge_update1 seeds frontier title st target).1) tbl := by
  unfold edge_update1
  cases hst : st.2 with
  | error e =>
      simp only [hst]
      intro tblF hF
      exact Except.noConfusion hF
  | ok tbl0 =>
      simp only [hst]
      by_cases h1 : target ∈ seeds ∧ target ≠ title
      · rw [if_pos h1]
        dsimp only
        intro tblF hF
        cases hb1 : bump tbl0 title
            (fun r => { r with links_to_seed := r.links_to_seed + 1 }) with
        | error e =>
            simp only [hb1] at hF
            exact Except.noConfusion hF
        | ok t1 =>
            simp only [hb1] at hF
            cases hb2 : bump t1 title
                (fun r => { r with out_degree := r.out_degree + 1 }) with
            | error e =>
                simp only [hb2] at hF
                exact Except.noConfusion hF
            | ok t2 =>
                simp only [hb2] at hF
                have hbase := h tbl0 hst
                intro x
                constructor
                · rw [← List.append_assoc, inCnt_append,
                    bump_optIn_incr hF (fun r => rfl) x,
                    bump_optIn_preserved hb2 (fun r => rfl) x,
                    bump_optIn_preserved hb1 (fun r => rfl) x,
                    (hbase x).1]
                · rw [← List.append_assoc, outCnt_append,
                    bump_optOut_preserved hF (fun r => rfl) x,
                    bump_optOut_incr hb2 (fun r => rfl) x,
                    bump_optOut_preserved hb1 (fun r => rfl) x,
                    (hbase x).2]
      · rw [if_neg h1]
        by_cases h2 : target ∈ frontier ∧ target ≠ title
        · rw [if_pos h2]
          dsimp only
          intro tblF hF
          cases hb1 : bump tbl0 title
              (fun r => { r with out_degree := r.out_degree + 1 }) with
          | error e =>
              simp only [hb1] at hF
              exact Except.noConfusion hF
          | ok t1 =>
              simp only [hb1] at hF
              have hbase := h tbl0 hst
              intro x
              constructor
              · rw [← List.append_assoc, inCnt_append,
                  bump_optIn_incr hF (fun r => rfl) x,
                  bump_optIn_preserved hb1 (fun r => rfl) x,
                  (hbase x).1]
              · rw [← List.append_assoc, outCnt_append,
                  bump_optOut_preserved hF (fun r => rfl) x,
                  bump_optOut_incr hb1 (fun r => rfl) x,
                  (hbase x).2]
        · rw [if_neg h2]
          intro tblF hF
          exact h tblF hF

lemma process_title1_degInv (pre : List (String × String)) (env : Env)
    (seeds frontier : List String)
    (st : List (String × String) × Except String Table) (title : String)
    (h : ∀ tbl, st.2 = .ok tbl → degInv (pre ++ st.1) tbl) :
    ∀ tbl, (process_title1 env seeds frontier st title).2 = .ok tbl →
      degInv (pre ++ (process_title1 env seeds frontier st title).1) tbl := by
  unfold process_title1
  cases hst : st.2 with
  | error e =>
      simp only [hst]
      intro tblF hF
      exact Except.noConfusion hF
  | ok tbl0 =>
      simp only [hst]
      cases heq :
          (if env.is_new title then
            bump tbl0 title (fun r => { r with out_WP := (env.outlinks title).length })
          else .ok tbl0) with
      | error e =>
          simp only [heq]
          intro tblF hF
          exact Except.noConfusion hF
      | ok tbl2 =>
          simp only [heq]
          have h2 : degInv (pre ++ st.1) tbl2 := by
            split at heq
            · have hbase := h tbl0 hst
              intro x
              exact ⟨by rw [bump_optIn_preserved heq (fun r => rfl) x]; exact (hbase x).1,
                by rw [bump_optOut_preserved heq (fun r => rfl) x]; exact (hbase x).2⟩
            · injection heq with h3
              subst h3
              exact h tbl0 hst
          refine foldl_preserve
            (fun s => ∀ tbl, s.2 = .ok tbl → degInv (pre ++ s.1) tbl)
            (edge_update1 seeds frontier title)
            (fun s a hs => edge_update1_degInv pre seeds frontier title s a hs)
            (env.outlinks title) (st.1, .ok tbl2) ?_
          intro tbl htbl
          injection htbl with h4
          subst h4
          exact h2

lemma level1_degInv (env : Env) (seeds frontier : List String)
    (pre : List (String × String)) (tbl0 : Table) (h0 : degInv pre tbl0) :
    ∀ tbl, (level1 env seeds frontier tbl0).2 = .ok tbl →
      degInv (pre ++ (level1 env seeds frontier tbl0).1) tbl := by
  unfold level1
  refine foldl_preserve
    (fun s => ∀ tbl, s.2 = .ok tbl → degInv (pre ++ s.1) tbl)
    (process_title1 env seeds frontier)
    (fun s a hs => process_title1_degInv pre env seeds frontier s a hs)
    frontier ([], .ok tbl0) ?_
  intro tbl htbl
  injection htbl with h2
  subst h2
  simpa using h0

/-! ### Frontier closure and no-self-edge preservation -/

lemma edge_update1_closure (seeds frontier : List String) (title : String)
    (st : List (String × String) × Except String Table) (target : String)
    (h : ∀ e ∈ st.1, e.2 ∈ seeds ∨ e.2 ∈ frontier) :
    ∀ e ∈ (edge_update1 seeds frontier title st target).1,
      e.2 ∈ seeds ∨ e.2 ∈ frontier := by
  unfold edge_update1
  cases hst : st.2 with
  | error e =>
      simp only [hst]
      exact h
  | ok tbl0 =>
      simp only [hst]
      by_cases h1 : target ∈ seeds ∧ target ≠ title
      · rw [if_pos h1]
        dsimp only
        intro e he
        rcases List.mem_append.mp he with he | he
        · exact h e he
        · simp at he
          subst he
          exact Or.inl h1.1
      · rw [if_neg h1]
        by_cases h2 : target ∈ frontier ∧ target ≠ title
        · rw [if_pos h2]
          dsimp only
          intro e he
          rcases List.mem_append.mp he with he | he
          · exact h e he
          · simp at he
            subst he
            exact Or.inr h2.1
        · rw [if_neg h2]
          exact h

lemma process_title1_closure (env : Env) (seeds frontier : List String)
    (st : List (String × String) × Except String Table) (title : String)
    (h : ∀ e ∈ st.1, e.2 ∈ seeds ∨ e.2 ∈ frontier) :
    ∀ e ∈ (process_title1 env seeds frontier st title).1,
      e.2 ∈ seeds ∨ e.2 ∈ frontier := by
  unfold process_title1
  cases hst : st.2 with
  | error e =>
      simp only [hst]
      exact h
  | ok tbl0 =>
      simp only [hst]
      cases heq :
          (if env.is_new title then
            bump tbl0 title (fun r => { r with out_WP := (env.outlinks title).length })
          else .ok tbl0) with
      | error e =>
          simp only [heq]
          exact h
      | ok tbl2 =>
          simp only [heq]
          exact foldl_preserve
            (fun s => ∀ e ∈ s.1, e.2 ∈ seeds ∨ e.2 ∈ frontier)
            (edge_update1 seeds frontier title)
            (fun s a hs => edge_update1_closure seeds frontier title s a hs)
            (env.outlinks title) (st.1, .ok tbl2) h

lemma level1_closure (env : Env) (seeds frontier : List String) (tbl0 : Table) :
    ∀ e ∈ (level1 env seeds frontier tbl0).1, e.2 ∈ seeds ∨ e.2 ∈ frontier := by
  unfold level1
  refine foldl_preserve
    (fun s => ∀ e ∈ s.1, e.2 ∈ seeds ∨ e.2 ∈ frontier)
    (process_title1 env seeds frontier)
    (fun s a hs => process_title1_closure env seeds frontier s a hs)
    frontier ([], .ok tbl0) ?_
  intro e he
  simp at he

lemma edge_update0_noself (seeds : List String) (nout : Nat) (seed : String)
    (st : List (String × String) × Table) (target : String)
    (h : ∀ e ∈ st.1, e.1 ≠ e.2) :
    ∀ e ∈ (edge_update0 seeds nout seed st target).1, e.1 ≠ e.2 := by
  unfold edge_update0
  by_cases he : seed = target
  · rw [if_pos he]
    exact h
  · rw [if_neg he]
    dsimp only
    intro e hm
    rcases List.mem_append.mp hm with hm | hm
    · exact h e hm
    · simp at hm
      subst hm
      exact he

lemma process_seed_noself (env : Env) (seeds : List String)
    (st : List (String × String) × Table × List String) (seed : String)
    (h : ∀ e ∈ st.1, e.1 ≠ e.2) :
    ∀ e ∈ (process_seed env seeds st seed).1, e.1 ≠ e.2 := by
  simp only [process_seed]
  exact foldl_preserve (fun p => ∀ e ∈ p.1, e.1 ≠ e.2)
    (edge_update0 seeds (env.outlinks seed).length seed)
    (fun s a hs => edge_update0_noself seeds (env.outlinks seed).length seed s a hs)
    (env.outlinks seed) (st.1, _) h

lemma level0_noself (env : Env) (seeds : List String) :
    ∀ e ∈ (level0 env seeds).1, e.1 ≠ e.2 := by
  unfold level0
  refine foldl_preserve (fun p => ∀ e ∈ p.1, e.1 ≠ e.2) (process_seed env seeds)
    (fun s a hs => process_seed_noself env seeds s a hs) seeds ([], [], []) ?_
  intro e he
  simp at he

lemma edge_update1_noself (seeds frontier : List String) (title : String)
    (st : List (String × String) × Except String Table) (target : String)
    (h : ∀ e ∈ st.1, e.1 ≠ e.2) :
    ∀ e ∈ (edge_update1 seeds frontier title st target).1, e.1 ≠ e.2 := by
  unfold edge_update1
  cases hst : st.2 with
  | error e =>
      simp only [hst]
      exact h
  | ok tbl0 =>
      simp only [hst]
      by_cases h1 : target ∈ seeds ∧ target ≠ title
      · rw [if_pos h1]
        dsimp only
        intro e he
        rcases List.mem_append.mp he with he | he
        · exact h e he
        · simp at he
          subst he
          exact fun hh => h1.2 hh.symm
      · rw [if_neg h1]
        by_cases h2 : target ∈ frontier ∧ target ≠ title
        · rw [if_pos h2]
          dsimp only
          intro e he
          rcases List.mem_append.mp he with he | he
          · exact h e he
          · simp at he
            subst he
            exact fun hh => h2.2 hh.symm
        · rw [if_neg h2]
          exact h

lemma process_title1_noself (env : Env) (seeds frontier : List String)
    (st : List (String × String) × Except String Table) (title : String)
    (h : ∀ e ∈ st.1, e.1 ≠ e.2) :
    ∀ e ∈ (process_title1 env seeds frontier st title).1, e.1 ≠ e.2 := by
  unfold process_title1
  cases hst : st.2 with
  | error e =>
      simp only [hst]
      exact h
  | ok tbl0 =>
      simp only [hst]
      cases heq :
          (if env.is_new title then
            bump tbl0 title (fun r => { r with out_WP := (env.outlinks title).length })
          else .ok tbl0) with
      | error e =>
          simp only [heq]
          exact h
      | ok tbl2 =>
          simp only [heq]
          exact foldl_preserve (fun s => ∀ e ∈ s.1, e.1 ≠ e.2)
            (edge_update1 seeds frontier title)
            (fun s a hs => edge_update1_noself seeds frontier title s a hs)
            (env.outlinks title) (st.1, .ok tbl2) h

lemma level1_noself (env : Env) (seeds frontier : List String) (tbl0 : Table) :
    ∀ e ∈ (level1 env seeds frontier tbl0).1, e.1 ≠ e.2 := by
  unfold level1
  refine foldl_preserve (fun s => ∀ e ∈ s.1, e.1 ≠ e.2)
    (process_title1 env seeds frontier)
    (fun s a hs => process_title1_noself env seeds frontier s a hs)
    frontier ([], .ok tbl0) ?_
  intro e he
  simp at he

/-! ### Concrete runs used by witnesses and the C10 failing input -/

/-- The §8 scenario of the spec: seed `A` with outlinks `[B, C]`,
`B → [A, D]`, `C → [B]`; every title freshly resolved. -/
def envC1 : Env :=
  ⟨fun _ => true,
   fun t => if t = "A" then ["B", "C"] else if t = "B" then ["A", "D"]
            else if t = "C" then ["B"] else []⟩

/-- The final `first_step` table of the `envC1` run. -/
def tblC1 : Table :=
  [("A", ⟨true, 0, 0, 1, 2, 2⟩),
   ("B", ⟨false, 1, 1, 2, 1, 2⟩),
   ("C", ⟨false, 1, 0, 1, 1, 1⟩)]

/-- The degree record of `B` in the `envC1` run. -/
def recB : DegreeRec := ⟨false, 1, 1, 2, 1, 2⟩

/-- The C10 failing input: seed `S` has no outlinks and receives no level-0
edge, so it never gets a `first_step` record, yet the frontier member `B`
links to it at level 1. -/
def envC10 : Env :=
  ⟨fun _ => false,
   fun t => if t = "A" then ["B"] else if t = "B" then ["S"] else []⟩

/-- Same run, except `S` emits one level-0 edge (so it has a record): the
precondition of C10 holds and the run completes. -/
def envC10good : Env :=
  ⟨fun _ => false,
   fun t => if t = "A" then ["B"] else if t = "B" then ["S"]
            else if t = "S" then ["A"] else []⟩

/-! ### Claim theorems: extract_network -/

/-- Claim C1 — Degree consistency: for every run of `extract_network` that
reaches the final export and every title in the exported degree table, the
`in_degree` field equals the number of edges of the emitted edge stream
whose target is that title and the `out_degree` field equals the number
whose source is that title. -/
theorem extract_network_degree_consistency (env : Env) (seed_lines : List String)
    (tbl : Table) (t : String) (d : DegreeRec)
    (hok : (extract_network env seed_lines).result = .ok tbl)
    (ht : dget tbl t = some d) :
    d.in_degree = inCnt ((extract_network env seed_lines).edges) t ∧
    d.out_degree = outCnt ((extract_network env seed_lines).edges) t := by
  simp only [extract_network, RunOutcome.edges] at hok ⊢
  have h0 := level0_degInv env (load_seed seed_lines)
  have h1 := level1_degInv env (load_seed seed_lines)
      ((dedup (level0 env (load_seed seed_lines)).2.2).filter
        (fun s => decide (s ∉ load_seed seed_lines)))
      (level0 env (load_seed seed_lines)).1
      (level0 env (load_seed seed_lines)).2.1 h0 tbl hok
  have h2 := h1 t
  rw [ht] at h2
  exact ⟨h2.1.symm, h2.2.symm⟩

/-- Witness for C1: the §8 scenario run reaches the export and the record
of `B` matches the edge counts. -/
theorem extract_network_degree_consistency_witness :
    recB.in_degree = inCnt ((extract_network envC1 ["A"]).edges) "B" ∧
    recB.out_degree = outCnt ((extract_network envC1 ["A"]).edges) "B" :=
  extract_network_degree_consistency envC1 ["A"] tblC1 "B" recB rfl rfl

/-- Claim C2 — Frontier closure: every edge written during the level-1 pass
has its target in the seed set or in the candidate frontier (the
deduplicated union of all level-0 outlink sets minus the seed set). -/
theorem extract_network_frontier_closure (env : Env) (seed_lines : List String)
    (e : String × String) (he : e ∈ (extract_network env seed_lines).edges1) :
    e.2 ∈ (extract_network env seed_lines).seeds ∨
    e.2 ∈ (extract_network env seed_lines).frontier := by
  simp only [extract_network] at he ⊢
  exact level1_closure env _ _ _ e he

/-- Witness for C2 at a concrete input. -/
theorem extract_network_frontier_closure_witness :
    ("B", "A").2 ∈ (extract_network envC1 ["A"]).seeds ∨
    ("B", "A").2 ∈ (extract_network envC1 ["A"]).frontier :=
  extract_network_frontier_closure envC1 ["A"] ("B", "A") (by decide)

/-- Claim C3 — No self-edges: every edge of the emitted edge stream, in
either pass, has distinct source and target. -/
theorem extract_network_no_self_edges (env : Env) (seed_lines : List String)
    (e : String × String) (he : e ∈ (extract_network env seed_lines).edges) :
    e.1 ≠ e.2 := by
  simp only [extract_network, RunOutcome.edges] at he
  rcases List.mem_append.mp he with he | he
  · exact level0_noself env _ e he
  · exact level1_noself env _ _ _ e he

/-- Witness for C3 at a concrete input. -/
theorem extract_network_no_self_edges_witness :
    ("A", "B").1 ≠ ("A", "B").2 :=
  extract_network_no_self_edges envC1 ["A"] ("A", "B") (by decide)

/-- Claim C10 — Level-1 degree updates assume an existing record: on the
`envC10` input, the seed `S` neither emits nor receives a level-0 edge, the
level-1 edge `(B, S)` is written to the stream, and the unguarded
`first_step[S]['in_degree'] += 1` raises an uncaught `KeyError` on `S`, so
the run aborts before the degree table is exported; on the `envC10good`
input, where every level-1 edge target has a record from the first pass,
the run completes. -/
theorem extract_network_level1_missing_record :
    run_error_key (extract_network envC10 ["A", "S"]) = some "S" ∧
    (extract_network envC10 ["A", "S"]).edges1 = [("B", "S")] ∧
    run_reached_export (extract_network envC10good ["A", "S"]) = true :=
  ⟨rfl, rfl, rfl⟩

end WikilinkNetwork
